import Mathlib

/-
Shallow embedding of src/src/js/parsers/samples_parser.ts.

JavaScript numbers are modelled as Nat: every value the codec handles is a
non-negative integer.  With one exception, all bit operations performed by
the source stay below 2^31, where JavaScript's 32-bit signed bitwise
semantics agree with unbounded natural-number semantics.  The exception is
the encoder's `noteEvent.state << 7`, whose operand is not range-checked
first: there the JS shift wraps to 32 bits, which packedByte models with an
explicit mod (see its doc comment).  Thrown RangeError exceptions (the only
failure mode of the source) are modelled by Option.none: on the encode side
none is a range-check failure of push8/push16/push32, on the decode side
none is an underflow failure of pop8/pop16/pop32, since those are the only
throw sites reachable from samplesParser_encode / samplesParser_decode.
-/

set_option maxRecDepth 20000

-- constants from the source
def TICKS_PER_BEAT : Nat := 24
def NUM_PAGES : Nat := 10
def LOOPS_PER_PAGE : Nat := 15

/-- ByteArray.push8: throws when the value is outside [0, 0xFF], otherwise
appends `value & 0xFF`. -/
def push8 (value : Nat) (d : List Nat) : Option (List Nat) :=
  if 0xFF < value then none else some (d ++ [value &&& 0xFF])

/-- ByteArray.push16: throws when the value is outside [0, 0xFFFF], otherwise
appends the two bytes low-byte first. -/
def push16 (value : Nat) (d : List Nat) : Option (List Nat) :=
  if 0xFFFF < value then none
  else some (d ++ [value &&& 0xFF, (value >>> 8) &&& 0xFF])

/-- ByteArray.push32: throws when the value is outside [0, 0xFFFFFFFF],
otherwise appends the four bytes low-byte first. -/
def push32 (value : Nat) (d : List Nat) : Option (List Nat) :=
  if 0xFFFFFFFF < value then none
  else some (d ++ [value &&& 0xFF, (value >>> 8) &&& 0xFF,
                   (value >>> 16) &&& 0xFF, (value >>> 24) &&& 0xFF])

/-- ByteArray.pop8: throws on an empty array, otherwise shifts off the first
byte. -/
def pop8 : List Nat → Option (Nat × List Nat)
  | [] => none
  | b :: rest => some (b, rest)

/-- ByteArray.pop16: throws when fewer than two bytes remain, otherwise
reassembles `lsb | (msb << 8)`. -/
def pop16 : List Nat → Option (Nat × List Nat)
  | lsb :: msb :: rest => some (lsb ||| (msb <<< 8), rest)
  | _ => none

/-- ByteArray.pop32: throws when fewer than four bytes remain, otherwise
reassembles `b0 | (b1 << 8) | (b2 << 16) | (b3 << 24)`; the source applies
`>>> 0` to force the unsigned interpretation, which on Nat is the identity
because the lor of the four shifted bytes is already the unsigned value. -/
def pop32 : List Nat → Option (Nat × List Nat)
  | b0 :: b1 :: b2 :: b3 :: rest =>
      some (b0 ||| (b1 <<< 8) ||| (b2 <<< 16) ||| (b3 <<< 24), rest)
  | _ => none

/-- NoteEvent from the source: note (int8_t), state, velocity. -/
structure NoteEvent where
  note : Nat
  state : Nat
  velocity : Nat
deriving DecidableEq, Repr

/-- NoteEventTime: tuple of time ticks and note event. -/
abbrev NoteEventTime := Nat × NoteEvent

/-- LoopData from the source. -/
structure LoopData where
  length_beats : Nat
  events : List NoteEventTime
deriving DecidableEq, Repr

/-- Page from the source: a uint16_t id plus an array of loops; an entry may
be null (modelled as none) and the array may be shorter than
LOOPS_PER_PAGE. -/
structure Page where
  id : Nat
  loops : List (Option LoopData)
deriving DecidableEq, Repr

/-- SamplePack from the source: four reserved uint32_t header words plus the
pages array. -/
structure SamplePack where
  reserved0 : Nat
  reserved1 : Nat
  reserved2 : Nat
  reserved3 : Nat
  pages : List Page
deriving DecidableEq, Repr

/-- The packed state/velocity byte `(noteEvent.state << 7) |
(noteEvent.velocity & 0x7F)` built by the encoder, as the unsigned 32-bit
value of the JS expression.  JavaScript's `<<` wraps its result to a signed
32-bit integer: the unsigned value of `state << 7` is (state * 128) mod
2^32 = (state mod 2^25) * 128, hence the explicit mod below; the or with
the 7-bit velocity field keeps the value below 2^32.  Feeding this unsigned
value to the Nat push8 is exact: push8's source check `value < 0 || value >
0xFF` on the signed result rejects precisely when the unsigned value
exceeds 0xFF (a negative signed value has unsigned value at least 2^31 >
0xFF), and on success the signed and unsigned values coincide. -/
def packedByte (e : NoteEvent) : Nat :=
  ((e.state % 0x2000000) <<< 7) ||| (e.velocity &&& 0x7F)

/-- One iteration of the encoder's event loop: push the masked note, the
packed state/velocity byte, then the 16-bit tick offset. -/
def encodeEvent (ld : List Nat) (ev : NoteEventTime) : Option (List Nat) :=
  (push8 (ev.2.note &&& 0x7F) ld).bind fun d1 =>
  (push8 (packedByte ev.2) d1).bind fun d2 =>
  push16 ev.1 d2

/-- The encoder's `for (const event of loop.events)` loop. -/
def encodeEvents (ld : List Nat) : List NoteEventTime → Option (List Nat)
  | [] => some ld
  | ev :: rest => (encodeEvent ld ev).bind fun d1 => encodeEvents d1 rest

/-- The per-loop body of the encoder: length_beats, number of events, then
the events. -/
def encodeLoop (ld : List Nat) (loop : LoopData) : Option (List Nat) :=
  (push8 loop.length_beats ld).bind fun d1 =>
  (push8 loop.events.length d1).bind fun d2 =>
  encodeEvents d2 loop.events

/-- One slot of the encoder's offsets/data pass, acting on the pair
(loopOffsets, loopData): a null slot appends the 0xFFFF sentinel to the
offset table, a present slot appends the current loopData length and then
the loop body. -/
def encodeSlot (acc : List Nat × List Nat) (slot : Option LoopData) :
    Option (List Nat × List Nat) :=
  match slot with
  | none => (push16 0xFFFF acc.1).bind fun offs => some (offs, acc.2)
  | some loop =>
      (push16 acc.2.length acc.1).bind fun offs =>
      (encodeLoop acc.2 loop).bind fun ld =>
      some (offs, ld)

/-- The encoder's inner `for (let loop_idx ...)` loop over a page's slots. -/
def encodeSlots (acc : List Nat × List Nat) :
    List (Option LoopData) → Option (List Nat × List Nat)
  | [] => some acc
  | s :: rest => (encodeSlot acc s).bind fun acc2 => encodeSlots acc2 rest

/-- The 15 slots the encoder reads from a page: `page.loops[loop_idx]` for
loop_idx in 0..14; a missing (out of range, i.e. undefined) entry behaves
like an explicit null under the source's `loop == null` test, which getD
with default none captures. -/
def pageSlots (page : Page) : List (Option LoopData) :=
  (List.range LOOPS_PER_PAGE).map (fun i => page.loops.getD i none)

/-- The encoder's outer page loop building the offsets and loop-data
buffers. -/
def encodePages (acc : List Nat × List Nat) :
    List Page → Option (List Nat × List Nat)
  | [] => some acc
  | page :: rest =>
      (encodeSlots acc (pageSlots page)).bind fun acc2 => encodePages acc2 rest

/-- The encoder's page-id loop `d.push16(samplePack.pages[i].id)`. -/
def pushIds (d : List Nat) : List Page → Option (List Nat)
  | [] => some d
  | page :: rest => (push16 page.id d).bind fun d2 => pushIds d2 rest

/-- The fixed 36-byte prefix the encoder writes first: the four reserved
words and the ten page ids. -/
def encodeHeader (pack : SamplePack) : Option (List Nat) :=
  (push32 pack.reserved0 []).bind fun d0 =>
  (push32 pack.reserved1 d0).bind fun d1 =>
  (push32 pack.reserved2 d1).bind fun d2 =>
  (push32 pack.reserved3 d2).bind fun d3 =>
  pushIds d3 (pack.pages.take NUM_PAGES)

/-- samplesParser_encode: header, then the two side buffers (offset table and
loop data) concatenated onto the end.  The source iterates page indices
0..NUM_PAGES-1, which is the take of the pages list. -/
def samplesParser_encode (pack : SamplePack) : Option (List Nat) :=
  (encodeHeader pack).bind fun hdr =>
  (encodePages ([], []) (pack.pages.take NUM_PAGES)).bind fun acc =>
  some (hdr ++ acc.1 ++ acc.2)

/-- The decoder's page-id loop: n pop16 calls. -/
def popIds : Nat → List Nat → Option (List Nat × List Nat)
  | 0, s => some ([], s)
  | n+1, s =>
      (pop16 s).bind fun v =>
      (popIds n v.2).bind fun vs =>
      some (v.1 :: vs.1, vs.2)

/-- The decoder's offset-table loop: n pop16 calls, each mapped to
`value === 0xFFFF ? false : true`. -/
def popExists : Nat → List Nat → Option (List Bool × List Nat)
  | 0, s => some ([], s)
  | n+1, s =>
      (pop16 s).bind fun v =>
      (popExists n v.2).bind fun bs =>
      some ((if v.1 = 0xFFFF then false else true) :: bs.1, bs.2)

/-- The decoder's event loop: note = pop8 & 0x7F, data = pop8 split into
state (bit 7) and velocity (bits 0-6), ticks = pop16. -/
def decodeEvents : Nat → List Nat → Option (List NoteEventTime × List Nat)
  | 0, s => some ([], s)
  | n+1, s =>
      (pop8 s).bind fun note =>
      (pop8 note.2).bind fun data =>
      (pop16 data.2).bind fun ticks =>
      (decodeEvents n ticks.2).bind fun evs =>
      some ((ticks.1, ⟨note.1 &&& 0x7F, (data.1 >>> 7) &&& 0x01,
                       data.1 &&& 0x7F⟩) :: evs.1, evs.2)

/-- The decoder's per-loop body: length_beats, the event count, then that
many events. -/
def decodeLoop (s : List Nat) : Option (LoopData × List Nat) :=
  (pop8 s).bind fun lb =>
  (pop8 lb.2).bind fun n =>
  (decodeEvents n.1 n.2).bind fun evs =>
  some (⟨lb.1, evs.1⟩, evs.2)

/-- The decoder's inner slot loop for one page.  The presence test indexes
`loopExists[page_idx * NUM_PAGES + loop_idx]`, exactly as the source does
(note the stride NUM_PAGES, not LOOPS_PER_PAGE); every index so consulted is
below 150, so getD with default false agrees with the source's array
access. -/
def decodeSlots (ex : List Bool) (page_idx : Nat) :
    List Nat → List Nat → Option (List (Option LoopData) × List Nat)
  | [], s => some ([], s)
  | loop_idx :: rest, s =>
    if ex.getD (page_idx * NUM_PAGES + loop_idx) false = false then
      (decodeSlots ex page_idx rest s).bind fun ls =>
      some (none :: ls.1, ls.2)
    else
      (decodeLoop s).bind fun loop =>
      (decodeSlots ex page_idx rest loop.2).bind fun ls =>
      some (some loop.1 :: ls.1, ls.2)

/-- The decoder's outer page loop. -/
def decodePages (ex : List Bool) :
    List Nat → List Nat → Option (List (List (Option LoopData)) × List Nat)
  | [], s => some ([], s)
  | page_idx :: rest, s =>
      (decodeSlots ex page_idx (List.range LOOPS_PER_PAGE) s).bind fun loops =>
      (decodePages ex rest loops.2).bind fun ls =>
      some (loops.1 :: ls.1, ls.2)

/-- samplesParser_decode: four reserved words, ten page ids, 150 presence
entries, then sequential loop decoding; trailing bytes are ignored, as in the
source. -/
def samplesParser_decode (s : List Nat) : Option SamplePack :=
  (pop32 s).bind fun r0 =>
  (pop32 r0.2).bind fun r1 =>
  (pop32 r1.2).bind fun r2 =>
  (pop32 r2.2).bind fun r3 =>
  (popIds NUM_PAGES r3.2).bind fun ids =>
  (popExists (NUM_PAGES * LOOPS_PER_PAGE) ids.2).bind fun ex =>
  (decodePages ex.1 (List.range NUM_PAGES) ex.2).bind fun loopss =>
  some ⟨r0.1, r1.1, r2.1, r3.1,
        (List.zip ids.1 loopss.1).map (fun q => ⟨q.1, q.2⟩)⟩

/-- getPageByteSize from the source: 1 byte length, 1 byte event count and 4
bytes per event for each non-null loop of the page's actual array. -/
def getPageByteSize (page : Page) : Nat :=
  page.loops.foldl (fun size slot =>
    match slot with
    | none => size
    | some l => size + 1 + 1 + 4 * l.events.length) 0

/-- getPackSize from the source: the sum of getPageByteSize over the pages;
the fixed header is not included. -/
def getPackSize (pack : SamplePack) : Nat :=
  pack.pages.foldl (fun size page => size + getPageByteSize page) 0

/-- Validity of a timed event, following the declared bit widths: tick in
[0, 65535], note and velocity in [0, 127], state in {0, 1}. -/
def validEvent (ev : NoteEventTime) : Prop :=
  ev.1 ≤ 0xFFFF ∧ ev.2.note ≤ 0x7F ∧ ev.2.state ≤ 1 ∧ ev.2.velocity ≤ 0x7F

instance (ev : NoteEventTime) : Decidable (validEvent ev) :=
  inferInstanceAs (Decidable (_ ∧ _ ∧ _ ∧ _))

/-- Validity of a loop: length_beats in [0, 255], at most 255 events, every
event valid. -/
def validLoop (l : LoopData) : Prop :=
  l.length_beats ≤ 0xFF ∧ l.events.length ≤ 0xFF ∧ ∀ ev ∈ l.events, validEvent ev

instance (l : LoopData) : Decidable (validLoop l) :=
  inferInstanceAs (Decidable (_ ∧ _ ∧ _))

/-- Validity of a slot: an absent slot is always valid, a present loop must
be valid. -/
def validSlot : Option LoopData → Prop
  | none => True
  | some l => validLoop l

instance (s : Option LoopData) : Decidable (validSlot s) :=
  match s with
  | none => isTrue trivial
  | some l => inferInstanceAs (Decidable (validLoop l))

/-- Validity of a page: 16-bit id and exactly LOOPS_PER_PAGE slots, all
valid. -/
def validPage (p : Page) : Prop :=
  p.id ≤ 0xFFFF ∧ p.loops.length = LOOPS_PER_PAGE ∧ ∀ s ∈ p.loops, validSlot s

instance (p : Page) : Decidable (validPage p) :=
  inferInstanceAs (Decidable (_ ∧ _ ∧ _))

/-- Validity of a pack: 32-bit reserved words and exactly NUM_PAGES valid
pages. -/
def validPack (pack : SamplePack) : Prop :=
  pack.reserved0 ≤ 0xFFFFFFFF ∧ pack.reserved1 ≤ 0xFFFFFFFF ∧
  pack.reserved2 ≤ 0xFFFFFFFF ∧ pack.reserved3 ≤ 0xFFFFFFFF ∧
  pack.pages.length = NUM_PAGES ∧ ∀ p ∈ pack.pages, validPage p

instance (pack : SamplePack) : Decidable (validPack pack) :=
  inferInstanceAs (Decidable (_ ∧ _ ∧ _ ∧ _ ∧ _ ∧ _))

/-- A page with no loops, as produced by generateDummySamples for unused
pages. -/
def emptyPage : Page := ⟨0xFFFF, List.replicate 15 none⟩

/-- A minimal present loop: length 7 beats, no events. -/
def c1Loop : LoopData := ⟨7, []⟩

/-- Concrete pack whose only present loop sits at page 1, slot 0. -/
def c1Pack : SamplePack :=
  ⟨1, 2, 3, 4,
   [emptyPage, ⟨0xAAAA, some c1Loop :: List.replicate 14 none⟩,
    emptyPage, emptyPage, emptyPage, emptyPage, emptyPage, emptyPage,
    emptyPage, emptyPage]⟩

/-- What the decoder actually returns for the encoding of c1Pack: the loop
reappears at page 1, slot 5, because the decoder reads its presence table
with stride NUM_PAGES = 10 instead of LOOPS_PER_PAGE = 15 (offset entry 15,
written for page 1 slot 0, is consulted as 1 * 10 + 5). -/
def c1Decoded : SamplePack :=
  ⟨1, 2, 3, 4,
   [emptyPage,
    ⟨0xAAAA, List.replicate 5 none ++ some c1Loop :: List.replicate 9 none⟩,
    emptyPage, emptyPage, emptyPage, emptyPage, emptyPage, emptyPage,
    emptyPage, emptyPage]⟩

/-- C1: the round-trip claim fails on the code.  c1Pack is valid, its
loop-data segment is far below 0xFFFF, encoding succeeds, yet decoding the
encoded buffer returns c1Decoded, in which the loop has moved from slot 0 to
slot 5 of page 1: decode(encode(pack)) is not structurally identical to
pack, because samplesParser_decode indexes loopExists with
page_idx * NUM_PAGES + loop_idx where the encoder wrote entries at
page_idx * LOOPS_PER_PAGE + loop_idx. -/
theorem claim_C1_roundtrip_counterexample :
    validPack c1Pack ∧ getPackSize c1Pack < 0xFFFF ∧
    (samplesParser_encode c1Pack).bind samplesParser_decode = some c1Decoded ∧
    c1Decoded ≠ c1Pack := by decide

/-- Concrete pack whose only present loop sits at page 9, slot 14; its
offset entry has index 9 * 15 + 14 = 149, which the decoder (with its
stride-10 presence indexing, consulting only indices up to 9 * 10 + 14 =
104) never looks at. -/
def c2Pack : SamplePack :=
  ⟨1, 2, 3, 4,
   [emptyPage, emptyPage, emptyPage, emptyPage, emptyPage, emptyPage,
    emptyPage, emptyPage, emptyPage,
    ⟨0xBBBB, List.replicate 14 none ++ [some c1Loop]⟩]⟩

/-- What the decoder returns for the truncated encoding of c2Pack: every
slot absent, the two loop-data bytes never read. -/
def c2Decoded : SamplePack :=
  ⟨1, 2, 3, 4,
   [emptyPage, emptyPage, emptyPage, emptyPage, emptyPage, emptyPage,
    emptyPage, emptyPage, emptyPage, ⟨0xBBBB, List.replicate 15 none⟩]⟩

/-- C2: the truncation-fails-closed claim fails on the code.  c2Pack is
valid with a 2-byte loop-data segment; dropping the last byte of its
encoding (k = 1) must, per the claim, make decode fail with an underflow
error, but samplesParser_decode succeeds and returns c2Decoded (all 150
slots absent): the decoder's stride-10 presence indexing never consults
offset entry 149, so the truncated loop data is simply never read. -/
theorem claim_C2_truncation_counterexample :
    validPack c2Pack ∧ getPackSize c2Pack = 2 ∧
    samplesParser_decode (((samplesParser_encode c2Pack).getD []).dropLast) =
      some c2Decoded := by decide

/-- A pack whose only present loop sits at page 0, slot 0 and holds the
single event (100, {note, state, velocity}); at that position the decoder's
presence indexing is correct (0 * 10 + 0 = 0 * 15 + 0), so the round trip
exercises exactly the masking behaviour. -/
def maskPack (note vel st : Nat) : SamplePack :=
  ⟨0, 0, 0, 0,
   ⟨1, some ⟨4, [(100, ⟨note, st, vel⟩)]⟩ :: List.replicate 14 none⟩ ::
    List.replicate 9 emptyPage⟩

/-- The tick, note, state and velocity of the unique event of page 0 slot 0
after encoding and then decoding maskPack; none when encode or decode fails
or the shape is unexpected. -/
def maskResult (note vel st : Nat) : Option (Nat × Nat × Nat × Nat) :=
  match (samplesParser_encode (maskPack note vel st)).bind samplesParser_decode with
  | none => none
  | some p =>
    match (p.pages.getD 0 ⟨0, []⟩).loops.getD 0 none with
    | none => none
    | some l =>
      match l.events with
      | [(t, e)] => some (t, e.note, e.state, e.velocity)
      | _ => none

/-- C6: encoding then decoding an event whose note (respectively velocity)
is 0, 127, 128 or 255 yields note (respectively velocity) 0, 127, 0, 127:
both fields are silently masked to their low 7 bits and no error is raised
for them. -/
theorem claim_C6_masking :
    maskResult 0 64 1 = some (100, 0, 1, 64) ∧
    maskResult 127 64 1 = some (100, 127, 1, 64) ∧
    maskResult 128 64 1 = some (100, 0, 1, 64) ∧
    maskResult 255 64 0 = some (100, 127, 0, 64) ∧
    maskResult 60 0 1 = some (100, 60, 1, 0) ∧
    maskResult 60 127 1 = some (100, 60, 1, 127) ∧
    maskResult 60 128 0 = some (100, 60, 0, 0) ∧
    maskResult 60 255 1 = some (100, 60, 1, 127) :=
  ⟨by decide, by decide, by decide, by decide,
   by decide, by decide, by decide, by decide⟩

/-- C7, counterexample: the two concrete behaviours an out-of-range state
can produce, each falsifying the claim's "encode succeeds, producing a
packed byte whose adjacent velocity bits are corrupted".  At state 2 (the
minimal integer outside {0, 1}; all other fields valid) encode does not
succeed at all: the packed value (2 << 7) | (64 & 0x7F) = 320 trips push8's
range check.  At state 2^25, where the JS 32-bit shift wraps `state << 7`
to 0, encode does succeed — but the velocity bits are intact, not
corrupted: the event decodes back with velocity exactly 64 (and state 0).
The amended theorem extends both facts to every state. -/
theorem claim_C7_counterexample :
    (validEvent (100, ⟨60, 2, 64⟩) ↔ False) ∧ packedByte ⟨60, 2, 64⟩ = 320 ∧
    samplesParser_encode (maskPack 60 64 2) = none ∧
    maskResult 60 64 0x2000000 = some (100, 60, 0, 64) :=
  ⟨by decide, by decide, by decide, by decide⟩

-- supporting lemmas about the byte-builder primitives

lemma push8_of_le {v : Nat} (d : List Nat) (h : v ≤ 0xFF) :
    push8 v d = some (d ++ [v &&& 0xFF]) := by
  unfold push8; rw [if_neg (by omega)]

lemma push8_of_lt {v : Nat} (d : List Nat) (h : 0xFF < v) : push8 v d = none := by
  unfold push8; rw [if_pos h]

lemma push8_eq_some {v : Nat} {d d2 : List Nat} (h : push8 v d = some d2) :
    v ≤ 0xFF ∧ d2 = d ++ [v &&& 0xFF] := by
  unfold push8 at h; split at h
  · cases h
  · next hv => exact ⟨by omega, (Option.some.inj h).symm⟩

lemma push16_of_le {v : Nat} (d : List Nat) (h : v ≤ 0xFFFF) :
    push16 v d = some (d ++ [v &&& 0xFF, (v >>> 8) &&& 0xFF]) := by
  unfold push16; rw [if_neg (by omega)]

lemma push16_of_lt {v : Nat} (d : List Nat) (h : 0xFFFF < v) : push16 v d = none := by
  unfold push16; rw [if_pos h]

lemma push16_eq_some {v : Nat} {d d2 : List Nat} (h : push16 v d = some d2) :
    v ≤ 0xFFFF ∧ d2 = d ++ [v &&& 0xFF, (v >>> 8) &&& 0xFF] := by
  unfold push16 at h; split at h
  · cases h
  · next hv => exact ⟨by omega, (Option.some.inj h).symm⟩

lemma push32_of_le {v : Nat} (d : List Nat) (h : v ≤ 0xFFFFFFFF) :
    push32 v d = some (d ++ [v &&& 0xFF, (v >>> 8) &&& 0xFF,
                             (v >>> 16) &&& 0xFF, (v >>> 24) &&& 0xFF]) := by
  unfold push32; rw [if_neg (by omega)]

-- small bitwise facts

lemma le_lor_left (a b : Nat) : a ≤ a ||| b := by
  have habs : a &&& (a ||| b) = a := by
    apply Nat.eq_of_testBit_eq; intro i
    simp only [Nat.testBit_and, Nat.testBit_lor]
    cases a.testBit i <;> simp
  calc a = a &&& (a ||| b) := habs.symm
    _ ≤ a ||| b := Nat.and_le_right

lemma packedByte_le {e : NoteEvent} (h : e.state ≤ 1) : packedByte e ≤ 0xFF := by
  have hm : e.state % 0x2000000 = e.state := Nat.mod_eq_of_lt (by omega)
  have h1 : (e.state % 0x2000000) <<< 7 < 2 ^ 8 := by
    rw [Nat.shiftLeft_eq, hm]; norm_num; omega
  have h2 : e.velocity &&& 0x7F < 2 ^ 8 :=
    lt_of_le_of_lt Nat.and_le_right (by norm_num)
  have h3 := Nat.or_lt_two_pow h1 h2
  unfold packedByte; norm_num at h3; omega

lemma packedByte_big {e : NoteEvent} (h : 2 ≤ e.state % 0x2000000) :
    0xFF < packedByte e := by
  have h1 : 0xFF < (e.state % 0x2000000) <<< 7 := by
    rw [Nat.shiftLeft_eq]; norm_num; omega
  exact lt_of_lt_of_le h1 (le_lor_left _ _)

lemma testBit_255 (j : Nat) : Nat.testBit 255 j = decide (j < 8) := by
  rw [show (255 : Nat) = 2 ^ 8 - 1 by norm_num, Nat.testBit_two_pow_sub_one]

lemma testBit_127 (j : Nat) : Nat.testBit 127 j = decide (j < 7) := by
  rw [show (127 : Nat) = 2 ^ 7 - 1 by norm_num, Nat.testBit_two_pow_sub_one]

lemma packedByte_and_7F (e : NoteEvent) :
    packedByte e &&& 0x7F = e.velocity &&& 0x7F := by
  unfold packedByte
  apply Nat.eq_of_testBit_eq; intro i
  simp only [Nat.testBit_and, Nat.testBit_lor, Nat.testBit_shiftLeft, testBit_127]
  by_cases hi : i < 7
  · simp [hi, show ¬(7 ≤ i) by omega]
  · simp [hi]

-- sizes of the loop-data contributions

/-- Bytes a slot contributes to the loop-data segment: 0 when absent,
2 + 4 * eventCount when present. -/
def slotSize : Option LoopData → Nat
  | none => 0
  | some l => 2 + 4 * l.events.length

/-- Total loop-data bytes of a list of slots. -/
def sumSizes (slots : List (Option LoopData)) : Nat := (slots.map slotSize).sum

/-- All 150 slots of a pack in the encoder's traversal order (page-major,
slot-minor). -/
def packSlots (pack : SamplePack) : List (Option LoopData) :=
  ((pack.pages.take NUM_PAGES).map pageSlots).flatten

lemma sumSizes_nil : sumSizes [] = 0 := rfl

lemma sumSizes_cons (s : Option LoopData) (l : List (Option LoopData)) :
    sumSizes (s :: l) = slotSize s + sumSizes l := by
  simp [sumSizes]

lemma sumSizes_append (l1 l2 : List (Option LoopData)) :
    sumSizes (l1 ++ l2) = sumSizes l1 + sumSizes l2 := by
  simp [sumSizes]

lemma slotSize_even (s : Option LoopData) : Even (slotSize s) := by
  cases s with
  | none => exact ⟨0, rfl⟩
  | some l => exact ⟨1 + 2 * l.events.length, by simp [slotSize]; ring⟩

lemma sumSizes_even (l : List (Option LoopData)) : Even (sumSizes l) := by
  induction l with
  | nil => exact ⟨0, rfl⟩
  | cons s rest ih => rw [sumSizes_cons]; exact (slotSize_even s).add ih

-- length bookkeeping for successful encodes

lemma encodeEvent_length {ld ld2 : List Nat} {ev : NoteEventTime}
    (h : encodeEvent ld ev = some ld2) : ld2.length = ld.length + 4 := by
  unfold encodeEvent at h
  rcases Option.bind_eq_some.mp h with ⟨d1, h1, h⟩
  rcases Option.bind_eq_some.mp h with ⟨d2, h2, h3⟩
  obtain ⟨-, rfl⟩ := push8_eq_some h1
  obtain ⟨-, rfl⟩ := push8_eq_some h2
  obtain ⟨-, rfl⟩ := push16_eq_some h3
  simp

lemma encodeEvents_length {evs : List NoteEventTime} :
    ∀ {ld ld2 : List Nat}, encodeEvents ld evs = some ld2 →
      ld2.length = ld.length + 4 * evs.length := by
  induction evs with
  | nil =>
      intro ld ld2 h
      simp only [encodeEvents] at h
      obtain rfl := Option.some.inj h; simp
  | cons ev rest ih =>
      intro ld ld2 h
      simp only [encodeEvents] at h
      rcases Option.bind_eq_some.mp h with ⟨d1, h1, h2⟩
      have e1 := encodeEvent_length h1
      have e2 := ih h2
      simp only [List.length_cons]; omega

lemma encodeLoop_length {ld ld2 : List Nat} {loop : LoopData}
    (h : encodeLoop ld loop = some ld2) :
    ld2.length = ld.length + slotSize (some loop) := by
  unfold encodeLoop at h
  rcases Option.bind_eq_some.mp h with ⟨d1, h1, h⟩
  rcases Option.bind_eq_some.mp h with ⟨d2, h2, h3⟩
  obtain ⟨-, rfl⟩ := push8_eq_some h1
  obtain ⟨-, rfl⟩ := push8_eq_some h2
  have := encodeEvents_length h3
  simp only [slotSize]
  simp at this; omega

lemma encodeSlot_some {acc acc2 : List Nat × List Nat} {slot : Option LoopData}
    (h : encodeSlot acc slot = some acc2) :
    acc2.1.length = acc.1.length + 2 ∧
    acc2.2.length = acc.2.length + slotSize slot := by
  cases slot with
  | none =>
      simp only [encodeSlot] at h
      rcases Option.bind_eq_some.mp h with ⟨offs, h1, h2⟩
      obtain ⟨-, rfl⟩ := push16_eq_some h1
      obtain rfl := Option.some.inj h2
      simp [slotSize]
  | some loop =>
      simp only [encodeSlot] at h
      rcases Option.bind_eq_some.mp h with ⟨offs, h1, h⟩
      rcases Option.bind_eq_some.mp h with ⟨ld, h2, h3⟩
      obtain ⟨-, rfl⟩ := push16_eq_some h1
      obtain rfl := Option.some.inj h3
      have := encodeLoop_length h2
      simp [this]

-- capacity failure: a present slot whose preceding loop data already
-- reached 0xFFFF (hence, by evenness, 0x10000) makes the slot pass fail

lemma encodeSlot_none_of_big {acc : List Nat × List Nat} {loop : LoopData}
    (h : 0xFFFF < acc.2.length) : encodeSlot acc (some loop) = none := by
  simp only [encodeSlot]
  rw [push16_of_lt _ h]; rfl

lemma encodeSlots_none_of_capacity (slots : List (Option LoopData)) :
    ∀ (acc : List Nat × List Nat) (k : Nat), Even acc.2.length →
      slots.getD k none ≠ none →
      0xFFFF ≤ acc.2.length + sumSizes (slots.take k) →
      encodeSlots acc slots = none := by
  induction slots with
  | nil =>
      intro acc k h1 h2 h3
      simp [List.getD] at h2
  | cons s rest ih =>
      intro acc k heven hpres hsz
      cases k with
      | zero =>
          match s, hpres with
          | some loop, _ =>
            have hlt : 0xFFFF < acc.2.length := by
              rcases heven with ⟨m, hm⟩
              simp only [List.take_zero, sumSizes_nil] at hsz
              omega
            simp only [encodeSlots, encodeSlot_none_of_big hlt, Option.none_bind]
      | succ k =>
          cases hs : encodeSlot acc s with
          | none => simp [encodeSlots, hs]
          | some acc2 =>
              obtain ⟨ho, hd⟩ := encodeSlot_some hs
              simp only [encodeSlots, hs, Option.some_bind]
              apply ih acc2 k
              · rw [hd]; exact heven.add (slotSize_even s)
              · simpa using hpres
              · rw [List.take_succ_cons, sumSizes_cons] at hsz
                omega

-- the nested page/slot loops equal one pass over the flattened slot list

lemma encodeSlots_append (l1 l2 : List (Option LoopData)) :
    ∀ acc, encodeSlots acc (l1 ++ l2) =
      (encodeSlots acc l1).bind fun a => encodeSlots a l2 := by
  induction l1 with
  | nil => intro acc; simp [encodeSlots]
  | cons s rest ih =>
      intro acc
      simp only [List.cons_append, encodeSlots]
      cases encodeSlot acc s with
      | none => simp
      | some acc2 => simp [ih]

lemma encodePages_eq_slots (pages : List Page) :
    ∀ acc, encodePages acc pages = encodeSlots acc (pages.map pageSlots).flatten := by
  induction pages with
  | nil => intro acc; simp [encodePages, encodeSlots]
  | cons p rest ih =>
      intro acc
      simp only [encodePages, List.map_cons, List.flatten_cons, encodeSlots_append]
      cases encodeSlots acc (pageSlots p) with
      | none => simp
      | some acc2 => simp [ih]

/-- C3: the capacity check.  First conjunct: the cumulative loop-data length
preceding any slot is always even (each present loop contributes 2 + 4n
bytes), so no emitted offset can ever equal the odd sentinel 0xFFFF.  Second
conjunct: whenever the loop data preceding a present slot (in traversal
order) has reached 0xFFFF bytes or more, samplesParser_encode reports an
error and returns no buffer — by evenness the length is then at least
0x10000, so push16 rejects the offset. -/
theorem claim_C3_capacity (pack : SamplePack) (k : Nat) :
    Even (sumSizes ((packSlots pack).take k)) ∧
    ((packSlots pack).getD k none ≠ none →
     0xFFFF ≤ sumSizes ((packSlots pack).take k) →
     samplesParser_encode pack = none) := by
  refine ⟨sumSizes_even _, fun hpres hsz => ?_⟩
  unfold samplesParser_encode
  cases hh : encodeHeader pack with
  | none => rfl
  | some hdr =>
      simp only [Option.some_bind]
      rw [encodePages_eq_slots,
          show (List.map pageSlots (List.take NUM_PAGES pack.pages)).flatten =
            packSlots pack from rfl,
          encodeSlots_none_of_capacity (packSlots pack) ([], []) k
            (by simp) hpres (by simpa using hsz)]
      rfl

/-- A 255-event loop: its loop-data contribution is 2 + 4 * 255 = 1022
bytes. -/
def bigLoop : LoopData := ⟨4, List.replicate 255 (0, ⟨60, 1, 64⟩)⟩

/-- A page whose 15 slots all hold bigLoop. -/
def fullPage : Page := ⟨1, List.replicate 15 (some bigLoop)⟩

/-- A pack whose first five pages are full of 255-event loops: slot 70 (page
4, slot 10) is present and is preceded by 70 * 1022 = 71540 > 0xFFFF bytes
of loop data. -/
def hugePack : SamplePack :=
  ⟨0, 0, 0, 0, List.replicate 5 fullPage ++ List.replicate 5 emptyPage⟩

theorem claim_C3_capacity_witness :
    (packSlots hugePack).getD 70 none ≠ none ∧
    0xFFFF ≤ sumSizes ((packSlots hugePack).take 70) ∧
    samplesParser_encode hugePack = none :=
  ⟨by decide, by decide,
   (claim_C3_capacity hugePack 70).2 (by decide) (by decide)⟩

-- successful encoding of valid data

lemma encodeEvent_of_valid {ev : NoteEventTime} (ld : List Nat)
    (hst : ev.2.state ≤ 1) (ht : ev.1 ≤ 0xFFFF) :
    ∃ ld2, encodeEvent ld ev = some ld2 ∧ ld2.length = ld.length + 4 := by
  have hn : ev.2.note &&& 0x7F ≤ 0xFF := le_trans Nat.and_le_right (by norm_num)
  unfold encodeEvent
  rw [push8_of_le _ hn, Option.some_bind, push8_of_le _ (packedByte_le hst),
      Option.some_bind, push16_of_le _ ht]
  exact ⟨_, rfl, by simp⟩

lemma encodeEvents_of_valid (evs : List NoteEventTime) :
    ∀ ld, (∀ ev ∈ evs, validEvent ev) →
      ∃ ld2, encodeEvents ld evs = some ld2 ∧
        ld2.length = ld.length + 4 * evs.length := by
  induction evs with
  | nil => intro ld _; exact ⟨ld, rfl, by simp⟩
  | cons ev rest ih =>
      intro ld h
      obtain ⟨hev, hrest⟩ := List.forall_mem_cons.mp h
      obtain ⟨ld1, h1, hl1⟩ := encodeEvent_of_valid ld hev.2.2.1 hev.1
      obtain ⟨ld2, h2, hl2⟩ := ih ld1 hrest
      refine ⟨ld2, ?_, ?_⟩
      · simp only [encodeEvents, h1, Option.some_bind]; exact h2
      · simp only [List.length_cons]; omega

lemma encodeLoop_of_valid (loop : LoopData) (ld : List Nat) (h : validLoop loop) :
    ∃ ld2, encodeLoop ld loop = some ld2 ∧
      ld2.length = ld.length + slotSize (some loop) := by
  obtain ⟨hlb, hcnt, hevs⟩ := h
  unfold encodeLoop
  rw [push8_of_le _ hlb, Option.some_bind, push8_of_le _ hcnt, Option.some_bind]
  obtain ⟨ld2, h2, hl⟩ := encodeEvents_of_valid loop.events _ hevs
  refine ⟨ld2, h2, ?_⟩
  simp only [slotSize]
  simp at hl; omega

lemma encodeSlots_of_valid (slots : List (Option LoopData)) :
    ∀ (offs ld : List Nat), (∀ s ∈ slots, validSlot s) →
      ld.length + sumSizes slots ≤ 0xFFFF →
      ∃ offs2 ld2, encodeSlots (offs, ld) slots = some (offs2, ld2) ∧
        offs2.length = offs.length + 2 * slots.length ∧
        ld2.length = ld.length + sumSizes slots := by
  induction slots with
  | nil =>
      intro offs ld _ _
      exact ⟨offs, ld, rfl, by simp, by simp [sumSizes_nil]⟩
  | cons s rest ih =>
      intro offs ld h hsz
      obtain ⟨hs, hrest⟩ := List.forall_mem_cons.mp h
      rw [sumSizes_cons] at hsz
      cases s with
      | none =>
          simp only [encodeSlots, encodeSlot,
            push16_of_le _ (by norm_num : (0xFFFF : Nat) ≤ 0xFFFF),
            Option.some_bind]
          obtain ⟨offs2, ld2, h2, ho, hl⟩ := ih (offs ++ [0xFFFF &&& 0xFF, (0xFFFF >>> 8) &&& 0xFF]) ld hrest
            (by simp only [slotSize] at hsz; omega)
          refine ⟨offs2, ld2, h2, ?_, ?_⟩
          · simp only [List.length_append, List.length_cons, List.length_nil,
              List.length_cons] at ho ⊢
            omega
          · rw [sumSizes_cons]; simp only [slotSize] at hsz ⊢; omega
      | some loop =>
          have hld : ld.length ≤ 0xFFFF := by omega
          simp only [encodeSlots, encodeSlot, push16_of_le _ hld, Option.some_bind]
          obtain ⟨ldmid, hloop, hlm⟩ := encodeLoop_of_valid loop ld hs
          rw [hloop, Option.some_bind]
          obtain ⟨offs2, ld2, h2, ho, hl⟩ := ih (offs ++ [ld.length &&& 0xFF, (ld.length >>> 8) &&& 0xFF]) ldmid hrest
            (by omega)
          refine ⟨offs2, ld2, h2, ?_, ?_⟩
          · simp only [List.length_append, List.length_cons, List.length_nil,
              List.length_cons] at ho ⊢
            omega
          · rw [sumSizes_cons]; omega

lemma pushIds_of_valid (pages : List Page) :
    ∀ d, (∀ p ∈ pages, p.id ≤ 0xFFFF) →
      ∃ d2, pushIds d pages = some d2 ∧ d2.length = d.length + 2 * pages.length := by
  induction pages with
  | nil => intro d _; exact ⟨d, rfl, by simp⟩
  | cons p rest ih =>
      intro d h
      obtain ⟨hp, hrest⟩ := List.forall_mem_cons.mp h
      simp only [pushIds, push16_of_le _ hp, Option.some_bind]
      obtain ⟨d2, h2, hl⟩ := ih (d ++ [p.id &&& 0xFF, (p.id >>> 8) &&& 0xFF]) hrest
      refine ⟨d2, h2, ?_⟩
      simp at hl; simp [hl]; ring

lemma encodeHeader_of_valid (pack : SamplePack)
    (h0 : pack.reserved0 ≤ 0xFFFFFFFF) (h1 : pack.reserved1 ≤ 0xFFFFFFFF)
    (h2 : pack.reserved2 ≤ 0xFFFFFFFF) (h3 : pack.reserved3 ≤ 0xFFFFFFFF)
    (hids : ∀ p ∈ pack.pages.take NUM_PAGES, p.id ≤ 0xFFFF) :
    ∃ hdr, encodeHeader pack = some hdr ∧
      hdr.length = 16 + 2 * (pack.pages.take NUM_PAGES).length := by
  unfold encodeHeader
  rw [push32_of_le _ h0, Option.some_bind, push32_of_le _ h1, Option.some_bind,
      push32_of_le _ h2, Option.some_bind, push32_of_le _ h3, Option.some_bind]
  obtain ⟨d2, hd2, hl⟩ := pushIds_of_valid (pack.pages.take NUM_PAGES) _ hids
  refine ⟨d2, hd2, ?_⟩
  simp only [List.length_append, List.length_cons, List.length_nil] at hl
  omega

-- relating the size calculator to the traversal-order slot sizes

lemma list_map_getD_range {α : Type} (l : List α) (d : α) :
    (List.range l.length).map (fun i => l.getD i d) = l := by
  induction l with
  | nil => simp
  | cons a t ih =>
      have hc : ((fun i => (a :: t).getD i d) ∘ Nat.succ) = fun i => t.getD i d := by
        funext i; simp [List.getD_cons_succ]
      calc (List.range (a :: t).length).map (fun i => (a :: t).getD i d)
          = (a :: t).getD 0 d ::
              (List.range t.length).map ((fun i => (a :: t).getD i d) ∘ Nat.succ) := by
            rw [List.length_cons, List.range_succ_eq_map, List.map_cons, List.map_map]
        _ = a :: t := by rw [hc, ih]; simp

lemma pageSlots_eq_loops (page : Page) (h : page.loops.length = LOOPS_PER_PAGE) :
    pageSlots page = page.loops := by
  unfold pageSlots; rw [← h]; exact list_map_getD_range page.loops none

lemma getPageByteSize_eq (page : Page) : getPageByteSize page = sumSizes page.loops := by
  suffices aux : ∀ (l : List (Option LoopData)) (init : Nat),
      l.foldl (fun size slot => match slot with
        | none => size
        | some x => size + 1 + 1 + 4 * x.events.length) init =
        init + (l.map slotSize).sum by
    simpa [getPageByteSize, sumSizes] using aux page.loops 0
  intro l
  induction l with
  | nil => intro init; simp
  | cons s rest ih =>
      intro init
      cases s with
      | none => simp only [List.foldl_cons, List.map_cons, List.sum_cons, ih, slotSize]; omega
      | some x => simp only [List.foldl_cons, List.map_cons, List.sum_cons, ih, slotSize]; omega

lemma sumSizes_flatten (L : List (List (Option LoopData))) :
    sumSizes L.flatten = (L.map sumSizes).sum := by
  induction L with
  | nil => rfl
  | cons l rest ih => simp only [List.flatten_cons, sumSizes_append, List.map_cons, List.sum_cons, ih]

lemma getPackSize_eq (pack : SamplePack) (h10 : pack.pages.length = NUM_PAGES)
    (h15 : ∀ p ∈ pack.pages, p.loops.length = LOOPS_PER_PAGE) :
    getPackSize pack = sumSizes (packSlots pack) := by
  unfold getPackSize packSlots
  rw [List.take_of_length_le (le_of_eq h10), sumSizes_flatten, List.map_map]
  suffices aux : ∀ (ps : List Page) (init : Nat),
      (∀ p ∈ ps, p.loops.length = LOOPS_PER_PAGE) →
      ps.foldl (fun size page => size + getPageByteSize page) init =
        init + (ps.map (fun p => sumSizes (pageSlots p))).sum by
    simpa [Function.comp] using aux pack.pages 0 h15
  intro ps
  induction ps with
  | nil => intro init _; simp
  | cons p rest ih =>
      intro init h
      obtain ⟨hp, hrest⟩ := List.forall_mem_cons.mp h
      simp only [List.foldl_cons, List.map_cons, List.sum_cons]
      rw [ih _ hrest, pageSlots_eq_loops p hp, ← getPageByteSize_eq]
      omega

lemma pageSlots_length (page : Page) : (pageSlots page).length = LOOPS_PER_PAGE := by
  simp [pageSlots]

lemma packSlots_length (pack : SamplePack) (h10 : pack.pages.length = NUM_PAGES) :
    (packSlots pack).length = 150 := by
  unfold packSlots
  rw [List.take_of_length_le (le_of_eq h10), List.length_flatten, List.map_map]
  have hc : (List.length ∘ pageSlots) = fun _ : Page => LOOPS_PER_PAGE := by
    funext p; exact pageSlots_length p
  rw [hc]
  have hsum : ∀ (ps : List Page),
      (ps.map (fun _ : Page => LOOPS_PER_PAGE)).sum = ps.length * LOOPS_PER_PAGE := by
    intro ps
    induction ps with
    | nil => simp
    | cons p r ihr => simp [ihr, Nat.succ_mul]; omega
  rw [hsum, h10]
  rfl

-- the full encoder succeeds on a valid pack and its output has the declared
-- length

lemma samplesParser_encode_success (pack : SamplePack) (hv : validPack pack)
    (hsz : getPackSize pack < 0xFFFF) :
    ∃ buf, samplesParser_encode pack = some buf ∧
      buf.length = 336 + getPackSize pack := by
  obtain ⟨h0, h1, h2, h3, h10, hpg⟩ := hv
  have hids : ∀ p ∈ pack.pages.take NUM_PAGES, p.id ≤ 0xFFFF :=
    fun p hp => (hpg p (List.take_subset _ _ hp)).1
  obtain ⟨hdr, hh, hhl⟩ := encodeHeader_of_valid pack h0 h1 h2 h3 hids
  have htake : pack.pages.take NUM_PAGES = pack.pages :=
    List.take_of_length_le (le_of_eq h10)
  have h15 : ∀ p ∈ pack.pages, p.loops.length = LOOPS_PER_PAGE :=
    fun p hp => (hpg p hp).2.1
  have hslots_valid : ∀ s ∈ packSlots pack, validSlot s := by
    intro s hs
    unfold packSlots at hs
    rw [htake] at hs
    obtain ⟨sl, hsl, hmem⟩ := List.mem_flatten.mp hs
    obtain ⟨p, hp, rfl⟩ := List.mem_map.mp hsl
    rw [pageSlots_eq_loops p (h15 p hp)] at hmem
    exact (hpg p hp).2.2 s hmem
  have hgs := getPackSize_eq pack h10 h15
  obtain ⟨offs2, ld2, hslots, ho, hl⟩ := encodeSlots_of_valid (packSlots pack) [] []
      hslots_valid (by simp only [List.length_nil]; omega)
  refine ⟨hdr ++ offs2 ++ ld2, ?_, ?_⟩
  · unfold samplesParser_encode
    rw [hh, Option.some_bind, encodePages_eq_slots,
        show (List.map pageSlots (List.take NUM_PAGES pack.pages)).flatten =
          packSlots pack from rfl,
        hslots]
    rfl
  · have hps : (packSlots pack).length = 150 := packSlots_length pack h10
    rw [htake, h10] at hhl
    simp only [List.length_append, List.length_nil] at ho hl ⊢
    rw [hhl, ho, hl, hps, ← hgs]
    simp only [NUM_PAGES]
    omega

/-- C5: for every valid pack whose loop-data segment stays below the
sentinel, samplesParser_encode succeeds and the encoded buffer's length is
exactly 336 + getPackSize(pack): the 336-byte fixed prefix plus 2 + 4 *
eventCount bytes per present loop (0 per absent slot), as computed by
getPageByteSize / getPackSize. -/
theorem claim_C5_size_agreement (pack : SamplePack) (hv : validPack pack)
    (hsz : getPackSize pack < 0xFFFF) :
    ∃ buf, samplesParser_encode pack = some buf ∧
      buf.length = 336 + getPackSize pack :=
  samplesParser_encode_success pack hv hsz

theorem claim_C5_size_agreement_witness :
    validPack c1Pack ∧ getPackSize c1Pack < 0xFFFF ∧
    (∃ buf, samplesParser_encode c1Pack = some buf ∧
      buf.length = 336 + getPackSize c1Pack) :=
  ⟨by decide, by decide, claim_C5_size_agreement c1Pack (by decide) (by decide)⟩

-- failure propagation: a slot that always fails makes the whole encode fail

lemma encodeEvent_none_of_bad {ev : NoteEventTime}
    (h : 0xFF < packedByte ev.2 ∨ 0xFFFF < ev.1) :
    ∀ ld, encodeEvent ld ev = none := by
  intro ld
  have hn : ev.2.note &&& 0x7F ≤ 0xFF := le_trans Nat.and_le_right (by norm_num)
  unfold encodeEvent
  rw [push8_of_le _ hn, Option.some_bind]
  rcases h with h | h
  · rw [push8_of_lt _ h]; rfl
  · cases hp : push8 (packedByte ev.2) (ld ++ [ev.2.note &&& 0x7F &&& 0xFF]) with
    | none => rfl
    | some d2 => simp only [Option.some_bind]; exact push16_of_lt _ h

lemma encodeEvents_none_of_mem (evs : List NoteEventTime) :
    ∀ {ev : NoteEventTime}, ev ∈ evs → (∀ ld, encodeEvent ld ev = none) →
      ∀ ld, encodeEvents ld evs = none := by
  induction evs with
  | nil => intro ev h; cases h
  | cons e rest ih =>
      intro ev hmem hbad ld
      rcases List.mem_cons.mp hmem with rfl | hmem2
      · simp only [encodeEvents, hbad ld, Option.none_bind]
      · cases he : encodeEvent ld e with
        | none => simp [encodeEvents, he]
        | some d1 =>
            simp only [encodeEvents, he, Option.some_bind]
            exact ih hmem2 hbad d1

lemma encodeLoop_none_of_bad {loop : LoopData}
    (h : 0xFF < loop.events.length ∨
         ∃ ev ∈ loop.events, 0xFF < packedByte ev.2 ∨ 0xFFFF < ev.1) :
    ∀ ld, encodeLoop ld loop = none := by
  intro ld
  unfold encodeLoop
  cases hlb : push8 loop.length_beats ld with
  | none => rfl
  | some d1 =>
      simp only [Option.some_bind]
      rcases h with h | ⟨ev, hmem, hbad⟩
      · rw [push8_of_lt _ h]; rfl
      · cases hc : push8 loop.events.length d1 with
        | none => rfl
        | some d2 =>
            simp only [Option.some_bind]
            exact encodeEvents_none_of_mem loop.events hmem
              (encodeEvent_none_of_bad hbad) d2

lemma encodeSlot_none_of_bad {loop : LoopData}
    (hbad : ∀ ld, encodeLoop ld loop = none) :
    ∀ acc, encodeSlot acc (some loop) = none := by
  intro acc
  simp only [encodeSlot]
  cases push16 acc.2.length acc.1 with
  | none => rfl
  | some offs => simp only [Option.some_bind, hbad, Option.none_bind]

lemma encodeSlots_none_of_mem (slots : List (Option LoopData)) :
    ∀ {slot : Option LoopData}, slot ∈ slots →
      (∀ acc, encodeSlot acc slot = none) →
      ∀ acc, encodeSlots acc slots = none := by
  induction slots with
  | nil => intro slot h; cases h
  | cons s rest ih =>
      intro slot hmem hbad acc
      rcases List.mem_cons.mp hmem with rfl | hmem2
      · simp only [encodeSlots, hbad acc, Option.none_bind]
      · cases hs : encodeSlot acc s with
        | none => simp [encodeSlots, hs]
        | some acc2 =>
            simp only [encodeSlots, hs, Option.some_bind]
            exact ih hmem2 hbad acc2

lemma samplesParser_encode_none_of_slot (pack : SamplePack)
    {slot : Option LoopData} (hmem : slot ∈ packSlots pack)
    (hbad : ∀ acc, encodeSlot acc slot = none) :
    samplesParser_encode pack = none := by
  unfold samplesParser_encode
  cases hh : encodeHeader pack with
  | none => rfl
  | some hdr =>
      simp only [Option.some_bind]
      rw [encodePages_eq_slots,
          show (List.map pageSlots (List.take NUM_PAGES pack.pages)).flatten =
            packSlots pack from rfl,
          encodeSlots_none_of_mem (packSlots pack) hmem hbad ([], [])]
      rfl

/-- C4: the hard range checks.  First conjunct: whenever some traversed loop
has more than 255 events or some event has a tick offset above 65535,
samplesParser_encode reports an error (returns no buffer) — never a silently
truncated field.  Second conjunct: when every event count and tick offset is
within range (the pack being valid in all other respects, with its loop-data
segment below the sentinel), the encoder raises no error at all, so in
particular those two checks never fire. -/
theorem claim_C4_range_checks (pack : SamplePack) :
    ((∃ l, some l ∈ packSlots pack ∧
        (0xFF < l.events.length ∨ ∃ ev ∈ l.events, 0xFFFF < ev.1)) →
      samplesParser_encode pack = none) ∧
    (validPack pack → getPackSize pack < 0xFFFF →
      ∃ buf, samplesParser_encode pack = some buf) := by
  constructor
  · rintro ⟨l, hmem, hbad⟩
    apply samplesParser_encode_none_of_slot pack hmem
    apply encodeSlot_none_of_bad
    apply encodeLoop_none_of_bad
    rcases hbad with h | ⟨ev, hm, ht⟩
    · exact Or.inl h
    · exact Or.inr ⟨ev, hm, Or.inr ht⟩
  · intro hv hsz
    obtain ⟨buf, hb, -⟩ := samplesParser_encode_success pack hv hsz
    exact ⟨buf, hb⟩

/-- A loop holding one event whose tick offset 70000 exceeds 65535. -/
def badTickLoop : LoopData := ⟨4, [(70000, ⟨60, 1, 64⟩)]⟩

/-- A pack containing badTickLoop at page 0, slot 0. -/
def badTickPack : SamplePack :=
  ⟨0, 0, 0, 0,
   ⟨1, some badTickLoop :: List.replicate 14 none⟩ :: List.replicate 9 emptyPage⟩

theorem claim_C4_range_checks_witness :
    samplesParser_encode badTickPack = none ∧
    (∃ buf, samplesParser_encode (maskPack 60 64 1) = some buf) :=
  ⟨(claim_C4_range_checks badTickPack).1
      ⟨badTickLoop, by decide, Or.inr ⟨(70000, ⟨60, 1, 64⟩), by decide, by decide⟩⟩,
   (claim_C4_range_checks (maskPack 60 64 1)).2 (by decide) (by decide)⟩

/-- C7 (amended): an out-of-range state never yields a successful encode
with corrupted velocity bits.  First conjunct: whenever state mod 2^25 is
at least 2 — i.e. for every integer outside {0, 1} except those congruent
to 0 or 1 modulo 2^25, whose JS 32-bit shift wraps back into range — the
packed value (state << 7) | (velocity & 0x7F) exceeds 0xFF, so push8's
range check makes samplesParser_encode fail for any pack containing such an
event in a traversed slot, rather than succeeding.  Second conjunct: the
packed byte's low seven bits always equal velocity & 0x7F, for every state
without exception, so no encode — including the wrapped states such as
2^25, for which it succeeds (see the counterexample theorem) — ever
corrupts the velocity field.  Together these refute the claim's existential
for every non-negative integer state: encode either reports an error or
produces a packed byte with the velocity bits intact. -/
theorem claim_C7_state_packing :
    (∀ (pack : SamplePack) (l : LoopData) (ev : NoteEventTime),
        some l ∈ packSlots pack → ev ∈ l.events → 2 ≤ ev.2.state % 0x2000000 →
        samplesParser_encode pack = none) ∧
    (∀ e : NoteEvent, packedByte e &&& 0x7F = e.velocity &&& 0x7F) := by
  constructor
  · intro pack l ev hmem hev hst
    apply samplesParser_encode_none_of_slot pack hmem
    apply encodeSlot_none_of_bad
    apply encodeLoop_none_of_bad
    exact Or.inr ⟨ev, hev, Or.inl (packedByte_big hst)⟩
  · exact packedByte_and_7F

theorem claim_C7_state_packing_witness :
    samplesParser_encode (maskPack 61 64 5) = none ∧
    packedByte ⟨60, 1, 200⟩ &&& 0x7F = 200 &&& 0x7F :=
  ⟨claim_C7_state_packing.1 (maskPack 61 64 5) ⟨4, [(100, ⟨61, 5, 64⟩)]⟩
      (100, ⟨61, 5, 64⟩) (by decide) (by decide) (by decide),
   claim_C7_state_packing.2 ⟨60, 1, 200⟩⟩

-- C9: 32-bit round trip through the byte builder

lemma reassemble32 (v : Nat) (h : v < 2 ^ 32) :
    (v &&& 0xFF) ||| (((v >>> 8) &&& 0xFF) <<< 8) ||| (((v >>> 16) &&& 0xFF) <<< 16) |||
      (((v >>> 24) &&& 0xFF) <<< 24) = v := by
  apply Nat.eq_of_testBit_eq
  intro i
  simp only [Nat.testBit_lor, Nat.testBit_and, Nat.testBit_shiftLeft,
    Nat.testBit_shiftRight, testBit_255]
  by_cases h8 : i < 8
  · simp [h8, show ¬(8 ≤ i) by omega, show ¬(16 ≤ i) by omega,
      show ¬(24 ≤ i) by omega]
  · by_cases h16 : i < 16
    · simp [h8, show 8 ≤ i by omega, show ¬(16 ≤ i) by omega,
        show ¬(24 ≤ i) by omega, show i - 8 < 8 by omega,
        show 8 + (i - 8) = i by omega]
    · by_cases h24 : i < 24
      · simp [h8, h16, show 8 ≤ i by omega, show 16 ≤ i by omega,
          show ¬(24 ≤ i) by omega, show ¬(i - 8 < 8) by omega,
          show i - 16 < 8 by omega, show 16 + (i - 16) = i by omega]
      · by_cases h32 : i < 32
        · simp [h8, h16, h24, show 8 ≤ i by omega, show 16 ≤ i by omega,
            show 24 ≤ i by omega, show ¬(i - 8 < 8) by omega,
            show ¬(i - 16 < 8) by omega, show i - 24 < 8 by omega,
            show 24 + (i - 24) = i by omega]
        · have hv : v.testBit i = false :=
            Nat.testBit_lt_two_pow
              (lt_of_lt_of_le h (Nat.pow_le_pow_right (by norm_num) (by omega)))
          simp [hv, show ¬(i < 8) from h8, show ¬(i - 8 < 8) by omega,
            show ¬(i - 16 < 8) by omega, show ¬(i - 24 < 8) by omega]

/-- C9: pushing any v in [0, 0xFFFFFFFF] with push32 onto an empty builder
and popping it back with pop32 returns exactly v; the little-endian
reassembly (forced unsigned by the source's `>>> 0`, which the Nat model's
lor already is) is the identity on the full unsigned 32-bit range, so the
reserved header words round-trip. -/
theorem claim_C9_u32_roundtrip (v : Nat) (h : v ≤ 0xFFFFFFFF) :
    (push32 v []).bind pop32 = some (v, []) := by
  rw [push32_of_le _ h, Option.some_bind]
  simp only [List.nil_append, pop32]
  rw [reassemble32 v (by omega)]

theorem claim_C9_u32_roundtrip_witness :
    (0xFFFFFFFF : Nat) ≤ 0xFFFFFFFF ∧
    (push32 0xFFFFFFFF []).bind pop32 = some (0xFFFFFFFF, []) :=
  ⟨by decide, claim_C9_u32_roundtrip 0xFFFFFFFF (by decide)⟩

-- C10: a loops array shorter than 15 entries encodes like one padded with
-- explicit nulls

/-- A page with its loops array padded with nulls to LOOPS_PER_PAGE
entries. -/
def padPage (page : Page) : Page :=
  ⟨page.id, page.loops ++ List.replicate (LOOPS_PER_PAGE - page.loops.length) none⟩

/-- A pack with every page's loops array padded with nulls to
LOOPS_PER_PAGE entries. -/
def padPack (pack : SamplePack) : SamplePack :=
  ⟨pack.reserved0, pack.reserved1, pack.reserved2, pack.reserved3,
   pack.pages.map padPage⟩

lemma getD_replicate {α : Type} (k j : Nat) (d : α) :
    (List.replicate k d).getD j d = d := by
  rw [List.getD_eq_getElem?_getD, List.getElem?_replicate]
  split <;> rfl

lemma pageSlots_padPage (page : Page) : pageSlots (padPage page) = pageSlots page := by
  unfold pageSlots padPage
  congr 1
  funext i
  by_cases hi : i < page.loops.length
  · exact List.getD_append _ _ _ _ hi
  · rw [List.getD_append_right _ _ _ _ (Nat.le_of_not_lt hi),
        List.getD_eq_default _ _ (Nat.le_of_not_lt hi), getD_replicate]

lemma pushIds_map_pad (ps : List Page) :
    ∀ d, pushIds d (ps.map padPage) = pushIds d ps := by
  induction ps with
  | nil => intro d; rfl
  | cons p rest ih =>
      intro d
      simp only [List.map_cons, pushIds]
      have hid : (padPage p).id = p.id := rfl
      rw [hid]
      cases push16 p.id d with
      | none => rfl
      | some d2 => simp only [Option.some_bind, ih]

lemma encodePages_map_pad (ps : List Page) :
    ∀ acc, encodePages acc (ps.map padPage) = encodePages acc ps := by
  induction ps with
  | nil => intro acc; rfl
  | cons p rest ih =>
      intro acc
      simp only [List.map_cons, encodePages, pageSlots_padPage]
      cases encodeSlots acc (pageSlots p) with
      | none => rfl
      | some acc2 => simp only [Option.some_bind, ih]

/-- C10: samplesParser_encode treats a missing (undefined) trailing slot of
a short loops array exactly like an explicit null: encoding any pack equals
encoding the pack with every page's loops array padded with nulls to 15
entries — the missing slots emit the 0xFFFF sentinel and contribute no
loop-data bytes, exactly as explicit nulls do. -/
theorem claim_C10_missing_slots (pack : SamplePack) :
    samplesParser_encode (padPack pack) = samplesParser_encode pack := by
  unfold samplesParser_encode encodeHeader
  simp only [padPack, ← List.map_take, pushIds_map_pad, encodePages_map_pad]

/-- A pack whose page 0 has only two slots in its loops array (one present,
one null), the other pages having empty loop arrays. -/
def shortPack : SamplePack :=
  ⟨0, 0, 0, 0,
   ⟨5, [some c1Loop, none]⟩ :: List.replicate 9 ⟨6, []⟩⟩

theorem claim_C10_missing_slots_witness :
    samplesParser_encode (padPack shortPack) = samplesParser_encode shortPack :=
  claim_C10_missing_slots shortPack

-- C8: the decoder consults offset entries only through the 0xFFFF test

/-- The 16-bit value of an offset-table entry given as (low byte, high
byte). -/
def entryVal (q : Nat × Nat) : Nat := q.1 ||| (q.2 <<< 8)

/-- The byte stream of a list of 16-bit entries, low byte first. -/
def pairBytes : List (Nat × Nat) → List Nat
  | [] => []
  | q :: rest => q.1 :: q.2 :: pairBytes rest

lemma popIds_pairBytes (qs : List (Nat × Nat)) :
    ∀ r, popIds qs.length (pairBytes qs ++ r) =
      some (qs.map entryVal, r) := by
  induction qs with
  | nil => intro r; rfl
  | cons q rest ih =>
      intro r
      simp only [pairBytes, List.length_cons, popIds, List.cons_append, pop16,
        Option.some_bind, ih, List.map_cons, entryVal]

lemma popExists_pairBytes (qs : List (Nat × Nat)) :
    ∀ r, popExists qs.length (pairBytes qs ++ r) =
      some (qs.map (fun q => if entryVal q = 0xFFFF then false else true), r) := by
  induction qs with
  | nil => intro r; rfl
  | cons q rest ih =>
      intro r
      simp only [pairBytes, List.length_cons, popExists, List.cons_append, pop16,
        Option.some_bind, ih, List.map_cons, entryVal]

lemma map_sentinel_eq (off1 off2 : List (Nat × Nat))
    (hlen : off1.length = off2.length)
    (hsame : ∀ i < off1.length,
      (entryVal (off1.getD i (0, 0)) = 0xFFFF ↔ entryVal (off2.getD i (0, 0)) = 0xFFFF)) :
    off1.map (fun q => if entryVal q = 0xFFFF then false else true) =
    off2.map (fun q => if entryVal q = 0xFFFF then false else true) := by
  apply List.ext_getElem (by simp [hlen])
  intro i h1 h2
  simp only [List.getElem_map]
  simp only [List.length_map] at h1 h2
  have hs := hsame i h1
  rw [List.getD_eq_getElem _ _ h1, List.getD_eq_getElem _ _ h2] at hs
  by_cases hc : entryVal off1[i] = 0xFFFF
  · rw [if_pos hc, if_pos (hs.mp hc)]
  · rw [if_neg hc, if_neg (fun hc2 => hc (hs.mpr hc2))]

/-- C8: two input buffers that agree everywhere except on offset-table
entries (bytes 36..335), where non-sentinel entries may be replaced by
different non-sentinel values (formally: entry i of the first table reads
0xFFFF exactly when entry i of the second does), decode to exactly the same
result: samplesParser_decode consults each offset entry only through the
test `== 0xFFFF` and never uses the numeric value for positioning. -/
theorem claim_C8_offset_oblivious
    (w0 w1 w2 w3 : List Nat) (idBytes off1 off2 : List (Nat × Nat))
    (rest : List Nat)
    (h0 : w0.length = 4) (h1 : w1.length = 4) (h2 : w2.length = 4)
    (h3 : w3.length = 4) (hid : idBytes.length = NUM_PAGES)
    (ho1 : off1.length = NUM_PAGES * LOOPS_PER_PAGE)
    (ho2 : off2.length = NUM_PAGES * LOOPS_PER_PAGE)
    (hsame : ∀ i < NUM_PAGES * LOOPS_PER_PAGE,
      (entryVal (off1.getD i (0, 0)) = 0xFFFF ↔ entryVal (off2.getD i (0, 0)) = 0xFFFF)) :
    samplesParser_decode
      (w0 ++ w1 ++ w2 ++ w3 ++ pairBytes idBytes ++ pairBytes off1 ++ rest) =
    samplesParser_decode
      (w0 ++ w1 ++ w2 ++ w3 ++ pairBytes idBytes ++ pairBytes off2 ++ rest) := by
  obtain ⟨a0, a1, a2, a3, rfl⟩ : ∃ a0 a1 a2 a3, w0 = [a0, a1, a2, a3] := by
    rcases w0 with _ | ⟨a, w⟩; · simp at h0
    rcases w with _ | ⟨b, w⟩; · simp at h0
    rcases w with _ | ⟨c, w⟩; · simp at h0
    rcases w with _ | ⟨d, w⟩; · simp at h0
    rcases w with _ | ⟨e, w⟩
    · exact ⟨a, b, c, d, rfl⟩
    · simp at h0
  obtain ⟨b0, b1, b2, b3, rfl⟩ : ∃ b0 b1 b2 b3, w1 = [b0, b1, b2, b3] := by
    rcases w1 with _ | ⟨a, w⟩; · simp at h1
    rcases w with _ | ⟨b, w⟩; · simp at h1
    rcases w with _ | ⟨c, w⟩; · simp at h1
    rcases w with _ | ⟨d, w⟩; · simp at h1
    rcases w with _ | ⟨e, w⟩
    · exact ⟨a, b, c, d, rfl⟩
    · simp at h1
  obtain ⟨c0, c1, c2, c3, rfl⟩ : ∃ c0 c1 c2 c3, w2 = [c0, c1, c2, c3] := by
    rcases w2 with _ | ⟨a, w⟩; · simp at h2
    rcases w with _ | ⟨b, w⟩; · simp at h2
    rcases w with _ | ⟨c, w⟩; · simp at h2
    rcases w with _ | ⟨d, w⟩; · simp at h2
    rcases w with _ | ⟨e, w⟩
    · exact ⟨a, b, c, d, rfl⟩
    · simp at h2
  obtain ⟨d0, d1, d2, d3, rfl⟩ : ∃ d0 d1 d2 d3, w3 = [d0, d1, d2, d3] := by
    rcases w3 with _ | ⟨a, w⟩; · simp at h3
    rcases w with _ | ⟨b, w⟩; · simp at h3
    rcases w with _ | ⟨c, w⟩; · simp at h3
    rcases w with _ | ⟨d, w⟩; · simp at h3
    rcases w with _ | ⟨e, w⟩
    · exact ⟨a, b, c, d, rfl⟩
    · simp at h3
  have hids : ∀ t : List Nat, popIds NUM_PAGES (pairBytes idBytes ++ t) =
      some (idBytes.map entryVal, t) := by
    intro t; rw [← hid]; exact popIds_pairBytes idBytes t
  have hex1 : ∀ t : List Nat,
      popExists (NUM_PAGES * LOOPS_PER_PAGE) (pairBytes off1 ++ t) =
      some (off1.map (fun q => if entryVal q = 0xFFFF then false else true), t) := by
    intro t; rw [← ho1]; exact popExists_pairBytes off1 t
  have hex2 : ∀ t : List Nat,
      popExists (NUM_PAGES * LOOPS_PER_PAGE) (pairBytes off2 ++ t) =
      some (off2.map (fun q => if entryVal q = 0xFFFF then false else true), t) := by
    intro t; rw [← ho2]; exact popExists_pairBytes off2 t
  have hmaps := map_sentinel_eq off1 off2 (by omega)
    (by rw [ho1]; exact hsame)
  unfold samplesParser_decode
  simp only [List.cons_append, List.nil_append, List.append_assoc, pop32,
    Option.some_bind, hids, hex1, hex2]
  rw [hmaps]

/-- Offset table with entry 0 present (value 0), all other entries the
sentinel. -/
def c8Off1 : List (Nat × Nat) := (0, 0) :: List.replicate 149 (255, 255)

/-- Same table with entry 0 replaced by the different non-sentinel value
7. -/
def c8Off2 : List (Nat × Nat) := (7, 0) :: List.replicate 149 (255, 255)

theorem claim_C8_offset_oblivious_witness :
    (∀ i < NUM_PAGES * LOOPS_PER_PAGE,
      (entryVal (c8Off1.getD i (0, 0)) = 0xFFFF ↔
       entryVal (c8Off2.getD i (0, 0)) = 0xFFFF)) ∧
    samplesParser_decode
      ([0, 0, 0, 0] ++ [0, 0, 0, 0] ++ [0, 0, 0, 0] ++ [0, 0, 0, 0] ++
       pairBytes (List.replicate 10 (0, 0)) ++ pairBytes c8Off1 ++ [5, 0]) =
    samplesParser_decode
      ([0, 0, 0, 0] ++ [0, 0, 0, 0] ++ [0, 0, 0, 0] ++ [0, 0, 0, 0] ++
       pairBytes (List.replicate 10 (0, 0)) ++ pairBytes c8Off2 ++ [5, 0]) :=
  ⟨by decide,
   claim_C8_offset_oblivious [0, 0, 0, 0] [0, 0, 0, 0] [0, 0, 0, 0] [0, 0, 0, 0]
     (List.replicate 10 (0, 0)) c8Off1 c8Off2 [5, 0]
     (by decide) (by decide) (by decide) (by decide) (by decide) (by decide)
     (by decide) (by decide)⟩
